import Mathlib

/-!
# Cache-first service worker (`service-worker.js`)

The script registers two handlers with its host: `install` pre-caches the fixed
list `ressources` into the cache named `sw-demo`, and `fetch` answers a request
from the host's cache storage, falling back to the network on a miss.

The handlers only call host interfaces (`caches.open`, `cache.addAll`,
`caches.match`, `fetch`, `event.waitUntil`, `event.respondWith`).  The host is
modelled explicitly: the cache storage is a list of named caches in creation
order, each cache is a list of request/response pairs in insertion order, the
network is a function from requests to outcomes, and a deferred value handed to
the host is its settled outcome (`Except`).  Every handler returns the settled
outcome together with the storage it leaves and the network calls it issued.

Requests and responses carry what the host's matching and `addAll` read: a
request has its URL (the fragment kept apart), its method and its headers; a
response has its status, the field names of its `Vary` header and its body.
Header names are in lower case, as the host compares them.
-/

namespace ServiceWorker

/-! ## Host data -/

/-- A URL as the host holds it: the URL without its fragment, and the fragment. -/
structure Url where
  resource : String
  fragment : Option String
deriving DecidableEq, Repr

/-- A request: URL, method and header list. -/
structure Request where
  url : Url
  method : String
  headers : List (String × String)
deriving DecidableEq, Repr

/-- A response as captured by the host: status code, the field names listed by
its `Vary` header (empty when it has none), and body. -/
structure Response where
  status : Nat
  vary : List String
  body : String
deriving DecidableEq, Repr

/-- The reason a network call failed. -/
structure NetFailure where
  reason : String
deriving DecidableEq, Repr

/-- The reasons `cache.addAll` rejects. -/
inductive AddAllError where
  | typeError
  | invalidState
deriving DecidableEq, Repr

/-- The network: each request either yields a response or fails. -/
abbrev Network := Request → Except NetFailure Response

/-- One cache: request/response pairs in insertion order. -/
abbrev Cache := List (Request × Response)

/-- The host's cache storage: named caches in creation order. -/
abbrev CacheStorage := List (String × Cache)

/-- What a handler leaves behind: the settled value of the deferred result it
handed to the host, the cache storage afterwards, and the network calls issued. -/
structure Outcome (α : Type) where
  result : α
  caches : CacheStorage
  netCalls : List Request

/-! ## Host interfaces used by the script -/

/-- Reading a URL string: what follows the first `#` is the fragment. -/
def parseUrl (s : String) : Url :=
  match s.toList.dropWhile (fun c => c != '#') with
  | [] => ⟨String.mk (s.toList.takeWhile (fun c => c != '#')), none⟩
  | _ :: frag => ⟨String.mk (s.toList.takeWhile (fun c => c != '#')), some (String.mk frag)⟩

/-- The request the host makes of a URL string handed to `addAll`: a `GET` of
that URL with an empty header list. -/
def requestOfUrl (s : String) : Request :=
  ⟨parseUrl s, "GET", []⟩

/-- The value of a header of a request, if it has one: the values of the
headers of that name, in order, joined by a comma and a space. -/
def headerValue (request : Request) (name : String) : Option String :=
  match (request.headers.filter (fun h => h.1 == name)).map Prod.snd with
  | [] => none
  | values => some (", ".intercalate values)

/-- The host's test whether a request matches a cached pair (no match options):
the request is a `GET`, the URLs are equal apart from their fragments, and for
every field the cached response's `Vary` header names, the field is not `*` and
the request and the cached request agree on that header. -/
def requestMatches (request : Request) (entry : Request × Response) : Bool :=
  request.method == "GET" && request.url.resource == entry.1.url.resource &&
    entry.2.vary.all (fun field =>
      field != "*" && headerValue request field == headerValue entry.1 field)

/-- The host's `fetch(request)`: one network call, whose outcome is the
network's. -/
def fetch (net : Network) (request : Request) : Except NetFailure Response × List Request :=
  (net request, [request])

/-- The host's `cache.match(request)`: the response of the first pair, in
insertion order, that the request matches. -/
def cacheMatch (cache : Cache) (request : Request) : Option Response :=
  (cache.find? (fun e => requestMatches request e)).map Prod.snd

/-- The host's `caches.match(request)`: the first hit of `cache.match` over the
caches of the storage, in creation order. -/
def cachesMatch (caches : CacheStorage) (request : Request) : Option Response :=
  caches.findSome? (fun p => cacheMatch p.2 request)

/-- The host's `caches.open(name)`: the storage afterwards, where the cache has
been created empty if no cache had that name. -/
def cachesOpen (caches : CacheStorage) (cacheName : String) : CacheStorage :=
  if caches.any (fun p => p.1 == cacheName) then caches else caches ++ [(cacheName, [])]

/-- The entries of the cache with the given name (none if there is no such cache). -/
def storeEntries (caches : CacheStorage) (cacheName : String) : Cache :=
  ((caches.find? (fun p => p.1 == cacheName)).map Prod.snd).getD []

/-- Writing back the entries of the cache with the given name. -/
def storeWrite : CacheStorage → String → Cache → CacheStorage
  | [], _, _ => []
  | p :: rest, cacheName, cache =>
    if p.1 == cacheName then (p.1, cache) :: rest
    else p :: storeWrite rest cacheName cache

/-- Whether `cache.addAll` accepts a fetched response: an ok status (200 to 299)
other than 206, and no `*` among the fields of its `Vary` header. -/
def addAllAccepts (response : Response) : Bool :=
  decide (200 ≤ response.status) && decide (response.status ≤ 299) &&
    response.status != 206 && !response.vary.contains "*"

/-- The fetching phase of `cache.addAll`: every request is fetched, and the
phase fails with a `TypeError` as soon as one fetch fails or is not accepted. -/
def fetchAll (net : Network) : List Request → Except AddAllError (List (Request × Response))
  | [] => .ok []
  | request :: rest =>
    match net request with
    | .error _ => .error .typeError
    | .ok response =>
      if addAllAccepts response then
        match fetchAll net rest with
        | .error e => .error e
        | .ok fetched => .ok ((request, response) :: fetched)
      else .error .typeError

/-- A single put: the pairs the request matches are removed, the new pair is
appended. -/
def cachePut (cache : Cache) (request : Request) (response : Response) : Cache :=
  cache.filter (fun e => !requestMatches request e) ++ [(request, response)]

/-- The writing phase of `cache.addAll`: the pairs are put in order; a request
that matches a pair added earlier in the same batch makes the batch fail with an
`InvalidStateError`. -/
def batchPut : Cache → List (Request × Response) → List (Request × Response) →
    Except AddAllError Cache
  | cache, _, [] => .ok cache
  | cache, added, op :: ops =>
    if added.any (fun e => requestMatches op.1 e) then .error .invalidState
    else batchPut (cachePut cache op.1 op.2) (added ++ [op]) ops

/-- The host's `cache.addAll(urls)`: a request is made of every URL string, all
requests are fetched first, and only if every fetch is accepted are the pairs
written. On rejection the cache is left as it was. -/
def cacheAddAll (net : Network) (cache : Cache) (urls : List String) :
    Except AddAllError Cache :=
  match fetchAll net (urls.map requestOfUrl) with
  | .error e => .error e
  | .ok fetched => batchPut cache [] fetched

/-! ## The script -/

/-- The manifest `ressources`. -/
def ressources : List String := ["/", "/index.html", "/style.css"]

/-- The `install` handler: `caches.open('sw-demo').then(cache =>
cache.addAll(ressources))`, handed to `event.waitUntil`. -/
def onInstall (net : Network) (caches : CacheStorage) : Outcome (Except AddAllError Unit) :=
  let opened := cachesOpen caches "sw-demo"
  match cacheAddAll net (storeEntries opened "sw-demo") ressources with
  | .ok cache => ⟨.ok (), storeWrite opened "sw-demo" cache, ressources.map requestOfUrl⟩
  | .error e => ⟨.error e, opened, ressources.map requestOfUrl⟩

/-- The `fetch` handler: `caches.match(event.request).then(response =>
response || fetch(event.request))`, handed to `event.respondWith`. -/
def onFetch (net : Network) (caches : CacheStorage) (request : Request) :
    Outcome (Except NetFailure Response) :=
  match cachesMatch caches request with
  | some response => ⟨.ok response, caches, []⟩
  | none => ⟨(fetch net request).1, caches, (fetch net request).2⟩

/-! ## Notions used to state the properties -/

/-- The caches created before the cache with the given name (all of them if
there is no such cache): the ones `caches.match` consults first. -/
def storesBefore (caches : CacheStorage) (name : String) : CacheStorage :=
  caches.takeWhile (fun p => p.1 != name)

/-- The pairs of a cache that a batch of puts leaves in place: those matched by
none of the requests of the batch. -/
def keptBy (ops : List (Request × Response)) (cache : Cache) : Cache :=
  cache.filter (fun e => ops.all (fun op => !requestMatches op.1 e))

/-- Whether the fetch of a request succeeds for `cache.addAll`: the network
answers it, with a response `addAll` accepts. -/
def fetchSucceeds (net : Network) (request : Request) : Bool :=
  match net request with
  | .ok response => addAllAccepts response
  | .error _ => false

/-- A `GET` request for a URL without fragment, with an empty header list. -/
def get (resource : String) : Request := ⟨⟨resource, none⟩, "GET", []⟩

/-- A response with status 200, no `Vary` header and the given body. -/
def page (body : String) : Response := ⟨200, [], body⟩

/-- A network on which every call fails. -/
def offline : Network := fun _ => .error ⟨"offline"⟩

/-- A network answering every request with status 200 and the given body. -/
def serving (body : String) : Network := fun _ => .ok (page body)

/-- A network answering every request with status 200, a `Vary` header naming
`accept`, and the given body. -/
def varying (body : String) : Network := fun _ => .ok ⟨200, ["accept"], body⟩

/-! ## Matching lemmas -/

lemma requestMatches_iff {request : Request} {entry : Request × Response} :
    requestMatches request entry = true ↔
      request.method = "GET" ∧ request.url.resource = entry.1.url.resource ∧
        ∀ field ∈ entry.2.vary, field ≠ "*" ∧
          headerValue request field = headerValue entry.1 field := by
  simp [requestMatches, and_assoc]

lemma requestMatches_resource {request : Request} {entry : Request × Response}
    (h : requestMatches request entry = true) :
    request.url.resource = entry.1.url.resource :=
  (requestMatches_iff.mp h).2.1

lemma requestMatches_self {request : Request} {response : Response}
    (hget : request.method = "GET") (hacc : addAllAccepts response = true) :
    requestMatches request (request, response) = true := by
  rw [requestMatches_iff]
  refine ⟨hget, rfl, ?_⟩
  intro field hfield
  refine ⟨?_, rfl⟩
  rintro rfl
  simp [addAllAccepts, hfield] at hacc

lemma cacheMatch_eq_none {cache : Cache} {request : Request} :
    cacheMatch cache request = none ↔ ∀ e ∈ cache, requestMatches request e = false := by
  simp [cacheMatch, List.find?_eq_none]

lemma cacheMatch_some_mem {cache : Cache} {request : Request} {response : Response}
    (h : cacheMatch cache request = some response) :
    ∃ e ∈ cache, e.2 = response ∧ requestMatches request e = true := by
  unfold cacheMatch at h
  rcases hf : cache.find? (fun e => requestMatches request e) with _ | e
  · simp [hf] at h
  · rw [hf] at h
    have hmem := List.mem_of_find?_eq_some hf
    have hkey := List.find?_some hf
    simp only [Option.map_some', Option.some.injEq] at h
    exact ⟨e, hmem, h, hkey⟩

lemma cacheMatch_append_of_none {c1 c2 : Cache} {request : Request}
    (h : ∀ e ∈ c1, requestMatches request e = false) :
    cacheMatch (c1 ++ c2) request = cacheMatch c2 request := by
  unfold cacheMatch
  rw [List.find?_append]
  have : c1.find? (fun e => requestMatches request e) = none := by
    simpa [List.find?_eq_none] using h
  simp [this]

lemma cacheMatch_cons_of_match {e : Request × Response} {rest : Cache} {request : Request}
    (h : requestMatches request e = true) : cacheMatch (e :: rest) request = some e.2 := by
  simp [cacheMatch, List.find?_cons, h]

lemma cacheMatch_first {pre post : Cache} {e : Request × Response} {request : Request}
    (hpre : ∀ x ∈ pre, requestMatches request x = false)
    (h : requestMatches request e = true) :
    cacheMatch (pre ++ e :: post) request = some e.2 := by
  rw [cacheMatch_append_of_none hpre, cacheMatch_cons_of_match h]

lemma cachesMatch_eq_none {caches : CacheStorage} {request : Request} :
    cachesMatch caches request = none ↔
      ∀ p ∈ caches, ∀ e ∈ p.2, requestMatches request e = false := by
  simp only [cachesMatch, List.findSome?_eq_none_iff, cacheMatch_eq_none]

lemma cachesMatch_some_mem {caches : CacheStorage} {request : Request} {response : Response}
    (h : cachesMatch caches request = some response) :
    ∃ p ∈ caches, ∃ e ∈ p.2, e.2 = response ∧ requestMatches request e = true := by
  unfold cachesMatch at h
  obtain ⟨p, hp, hm⟩ := List.exists_of_findSome?_eq_some h
  exact ⟨p, hp, cacheMatch_some_mem hm⟩

lemma cachesMatch_append_of_none {s1 s2 : CacheStorage} {request : Request}
    (h : ∀ p ∈ s1, ∀ e ∈ p.2, requestMatches request e = false) :
    cachesMatch (s1 ++ s2) request = cachesMatch s2 request := by
  induction s1 with
  | nil => rfl
  | cons p rest ih =>
    have hp : cacheMatch p.2 request = none :=
      cacheMatch_eq_none.mpr (h p (List.mem_cons_self _ _))
    have hrest := ih (fun s hs => h s (List.mem_cons_of_mem _ hs))
    simp only [cachesMatch] at hrest ⊢
    simp [List.findSome?_cons, hp, hrest]

lemma cachesMatch_first {before after : CacheStorage} {name : String} {cache : Cache}
    {request : Request} {response : Response}
    (hbefore : ∀ p ∈ before, ∀ e ∈ p.2, requestMatches request e = false)
    (h : cacheMatch cache request = some response) :
    cachesMatch (before ++ (name, cache) :: after) request = some response := by
  rw [cachesMatch_append_of_none hbefore]
  simp [cachesMatch, List.findSome?_cons, h]

/-! ## Storage lemmas -/

lemma storeEntries_cachesOpen (caches : CacheStorage) (name other : String) :
    storeEntries (cachesOpen caches name) other = storeEntries caches other := by
  unfold cachesOpen
  split
  · rfl
  · rename_i h
    unfold storeEntries
    rw [List.find?_append]
    rcases hf : caches.find? (fun p => p.1 == other) with _ | p
    · by_cases hn : name = other <;> simp [List.find?_cons, hn, hf]
    · simp [hf]

lemma any_name_cachesOpen (caches : CacheStorage) (name : String) :
    (cachesOpen caches name).any (fun p => p.1 == name) = true := by
  unfold cachesOpen
  split
  · assumption
  · simp

lemma cachesOpen_of_any {caches : CacheStorage} {name : String}
    (h : caches.any (fun p => p.1 == name) = true) : cachesOpen caches name = caches := by
  simp [cachesOpen, h]

lemma any_name_storeWrite (caches : CacheStorage) (name : String) (cache : Cache) :
    (storeWrite caches name cache).any (fun p => p.1 == name)
      = caches.any (fun p => p.1 == name) := by
  induction caches with
  | nil => rfl
  | cons p rest ih =>
    unfold storeWrite
    by_cases hp : p.1 = name
    · simp [hp]
    · simp [hp, ih]

lemma storeEntries_storeWrite_same {caches : CacheStorage} {name : String} (cache : Cache)
    (h : caches.any (fun p => p.1 == name) = true) :
    storeEntries (storeWrite caches name cache) name = cache := by
  induction caches with
  | nil => simp at h
  | cons p rest ih =>
    unfold storeWrite
    by_cases hp : p.1 = name
    · simp [hp, storeEntries]
    · have hrest : rest.any (fun p => p.1 == name) = true := by simpa [hp] using h
      have := ih hrest
      simp only [storeEntries] at this ⊢
      simpa [hp, List.find?_cons] using this

lemma storeWrite_storeWrite (caches : CacheStorage) (name : String) (c1 c2 : Cache) :
    storeWrite (storeWrite caches name c1) name c2 = storeWrite caches name c2 := by
  induction caches with
  | nil => rfl
  | cons p rest ih =>
    by_cases hp : p.1 = name
    · simp [storeWrite, hp]
    · simp [storeWrite, hp, ih]

lemma storesBefore_cachesOpen (caches : CacheStorage) (name : String) :
    storesBefore (cachesOpen caches name) name = storesBefore caches name := by
  unfold cachesOpen
  split
  · rfl
  · rename_i h
    unfold storesBefore
    have hall : ∀ p ∈ caches, (p.1 != name) = true := by
      intro p hp
      simp only [List.any_eq_true, not_exists, not_and] at h
      have := h p hp
      simpa using this
    rw [List.takeWhile_append_of_pos hall, List.takeWhile_eq_self_iff.mpr hall]
    simp

lemma cachesMatch_storeWrite {caches : CacheStorage} {name : String} {cache : Cache}
    {request : Request} {response : Response}
    (hany : caches.any (fun p => p.1 == name) = true)
    (hhit : cacheMatch cache request = some response) :
    cachesMatch (storeWrite caches name cache) request
      = some ((cachesMatch (storesBefore caches name) request).getD response) := by
  induction caches with
  | nil => simp at hany
  | cons p rest ih =>
    by_cases hp : p.1 = name
    · simp [storeWrite, hp, cachesMatch, storesBefore, hhit]
    · have hrest : rest.any (fun p => p.1 == name) = true := by simpa [hp] using hany
      have := ih hrest
      simp only [cachesMatch, storesBefore] at this ⊢
      rcases hm : cacheMatch p.2 request with _ | r
      · simp [storeWrite, hp, hm, this, List.takeWhile_cons]
      · simp [storeWrite, hp, hm, List.takeWhile_cons]

/-! ## Lemmas on `cache.addAll` -/

lemma fetchAll_ok {net : Network} {requests : List Request}
    {fetched : List (Request × Response)} (h : fetchAll net requests = .ok fetched) :
    fetched.map Prod.fst = requests ∧
      ∀ e ∈ fetched, net e.1 = .ok e.2 ∧ addAllAccepts e.2 = true := by
  induction requests generalizing fetched with
  | nil =>
    simp [fetchAll] at h
    subst h
    simp
  | cons q rest ih =>
    unfold fetchAll at h
    rcases hq : net q with f | r
    · simp [hq] at h
    · rw [hq] at h
      by_cases ha : addAllAccepts r = true
      · rcases hr : fetchAll net rest with e | l
        · simp [ha, hr] at h
        · simp [ha, hr] at h
          subst h
          obtain ⟨h1, h2⟩ := ih hr
          refine ⟨by simp [h1], ?_⟩
          intro e he
          rcases List.mem_cons.mp he with rfl | he
          · exact ⟨hq, ha⟩
          · exact h2 e he
      · simp [ha] at h

lemma fetchAll_error {net : Network} {requests : List Request} {e : AddAllError}
    (h : fetchAll net requests = .error e) :
    e = .typeError ∧ ∃ q ∈ requests, ∀ r, net q = .ok r → addAllAccepts r = false := by
  induction requests with
  | nil => simp [fetchAll] at h
  | cons q rest ih =>
    unfold fetchAll at h
    rcases hq : net q with f | r
    · rw [hq] at h
      simp at h
      exact ⟨h.symm, q, List.mem_cons_self _ _, by simp [hq]⟩
    · rw [hq] at h
      by_cases ha : addAllAccepts r = true
      · rcases hr : fetchAll net rest with e2 | l
        · simp [ha, hr] at h
          subst h
          obtain ⟨h1, q2, hq2, h2⟩ := ih hr
          exact ⟨h1, q2, List.mem_cons_of_mem _ hq2, h2⟩
        · simp [ha, hr] at h
      · simp [ha] at h
        refine ⟨h.symm, q, List.mem_cons_self _ _, ?_⟩
        intro r2 hr2
        rw [hq] at hr2
        cases hr2
        simpa using ha

lemma fetchAll_of_all {net : Network} {requests : List Request}
    (h : ∀ q ∈ requests, ∃ r, net q = .ok r ∧ addAllAccepts r = true) :
    ∃ fetched, fetchAll net requests = .ok fetched := by
  rcases hf : fetchAll net requests with e | fetched
  · obtain ⟨_, q, hq, hno⟩ := fetchAll_error hf
    obtain ⟨r, hr, ha⟩ := h q hq
    rw [hno r hr] at ha
    cases ha
  · exact ⟨fetched, rfl⟩

lemma mem_keptBy {ops : List (Request × Response)} {cache : Cache} {e : Request × Response} :
    e ∈ keptBy ops cache ↔ e ∈ cache ∧ ∀ op ∈ ops, requestMatches op.1 e = false := by
  simp [keptBy, List.mem_filter]

lemma batchPut_eq (cache : Cache) (added ops : List (Request × Response))
    (hnd : (ops.map (fun e => e.1.url.resource)).Nodup)
    (hadded : ∀ a ∈ added, ∀ op ∈ ops, a.1.url.resource ≠ op.1.url.resource) :
    batchPut cache added ops = .ok (keptBy ops cache ++ ops) := by
  induction ops generalizing cache added with
  | nil => simp [batchPut, keptBy]
  | cons x rest ih =>
    simp only [List.map_cons, List.nodup_cons, List.mem_map, not_exists, not_and] at hnd
    have hfree : added.any (fun e => requestMatches x.1 e) = false := by
      rw [List.any_eq_false]
      intro a ha hm
      exact hadded a ha x (List.mem_cons_self _ _) (requestMatches_resource hm).symm
    have hadded2 : ∀ a ∈ added ++ [x], ∀ op ∈ rest,
        a.1.url.resource ≠ op.1.url.resource := by
      intro a ha op hop
      rcases List.mem_append.mp ha with ha | ha
      · exact hadded a ha op (List.mem_cons_of_mem _ hop)
      · rw [List.mem_singleton.mp ha]
        exact fun h => hnd.1 op hop h.symm
    unfold batchPut
    rw [if_neg (by simp [hfree]), ih _ _ hnd.2 hadded2]
    have hx : keptBy rest [x] = [x] := by
      simp only [keptBy, List.filter_eq_self, List.mem_singleton, List.all_eq_true,
        Bool.not_eq_true']
      rintro e rfl op hop
      by_contra hm
      have hm2 : requestMatches op.1 e = true := by simpa using hm
      exact hnd.1 op hop (requestMatches_resource hm2)
    have hsplit : keptBy rest (cachePut cache x.1 x.2) = keptBy (x :: rest) cache ++ [x] := by
      unfold cachePut
      show keptBy rest (_ ++ [(x.1, x.2)]) = _
      have : ((x.1, x.2) : Request × Response) = x := rfl
      rw [this]
      simp only [keptBy, List.filter_append, List.filter_filter] at hx ⊢
      rw [hx]
      congr 1
      apply List.filter_congr
      intro e _
      simp [Bool.and_comm]
    rw [hsplit]
    simp

lemma keptBy_keptBy (ops : List (Request × Response)) (cache : Cache) :
    keptBy ops (keptBy ops cache) = keptBy ops cache := by
  simp [keptBy, List.filter_filter]

lemma keptBy_self_nil {ops : List (Request × Response)}
    (hself : ∀ e ∈ ops, requestMatches e.1 e = true) : keptBy ops ops = [] := by
  simp only [keptBy, List.filter_eq_nil_iff, List.all_eq_true, Bool.not_eq_true', not_forall]
  intro e he
  exact ⟨e, he, by simp [hself e he]⟩

lemma keptBy_append_self {ops : List (Request × Response)} (cache : Cache)
    (hself : ∀ e ∈ ops, requestMatches e.1 e = true) :
    keptBy ops (keptBy ops cache ++ ops) ++ ops = keptBy ops cache ++ ops := by
  have h1 : keptBy ops (keptBy ops cache ++ ops)
      = keptBy ops (keptBy ops cache) ++ keptBy ops ops := by
    simp [keptBy, List.filter_append]
  rw [h1, keptBy_keptBy, keptBy_self_nil hself, List.append_nil]

lemma cacheMatch_of_mem_nodup {ops : List (Request × Response)} {request : Request}
    {entry : Request × Response}
    (hnd : (ops.map (fun e => e.1.url.resource)).Nodup) (hmem : entry ∈ ops)
    (hm : requestMatches request entry = true) :
    cacheMatch ops request = some entry.2 := by
  induction ops with
  | nil => simp at hmem
  | cons x rest ih =>
    simp only [List.map_cons, List.nodup_cons, List.mem_map, not_exists, not_and] at hnd
    rcases List.mem_cons.mp hmem with h | h
    · subst h
      exact cacheMatch_cons_of_match hm
    · have hx : requestMatches request x = false := by
        by_contra hc
        have hc2 : requestMatches request x = true := by simpa using hc
        have h1 := requestMatches_resource hc2
        have h2 := requestMatches_resource hm
        exact hnd.1 entry h (h2.symm.trans h1)
      have := @cacheMatch_append_of_none [x] rest request (by simpa using hx)
      rw [List.singleton_append] at this
      rw [this]
      exact ih hnd.2 h

lemma cacheMatch_kept_append {kept ops : List (Request × Response)} {request : Request}
    {entry : Request × Response}
    (hnd : (ops.map (fun e => e.1.url.resource)).Nodup) (hmem : entry ∈ ops)
    (hm : requestMatches request entry = true)
    (hkept : ∀ e ∈ kept, requestMatches request e = false) :
    cacheMatch (kept ++ ops) request = some entry.2 := by
  rw [cacheMatch_append_of_none hkept]
  exact cacheMatch_of_mem_nodup hnd hmem hm

lemma filter_matches_length_one {ops : List (Request × Response)} {request : Request}
    {entry : Request × Response}
    (hnd : (ops.map (fun e => e.1.url.resource)).Nodup) (hmem : entry ∈ ops)
    (hm : requestMatches request entry = true) :
    (ops.filter (fun e => requestMatches request e)).length = 1 := by
  induction ops with
  | nil => simp at hmem
  | cons x rest ih =>
    simp only [List.map_cons, List.nodup_cons, List.mem_map, not_exists, not_and] at hnd
    rcases List.mem_cons.mp hmem with h | h
    · subst h
      have hnone : rest.filter (fun e => requestMatches request e) = [] := by
        rw [List.filter_eq_nil_iff]
        intro e he hme
        exact hnd.1 e he ((requestMatches_resource hme).symm.trans (requestMatches_resource hm))
      simp [List.filter_cons, hm, hnone]
    · have hx : requestMatches request x = false := by
        by_contra hc
        have hc2 : requestMatches request x = true := by simpa using hc
        exact hnd.1 entry h
          ((requestMatches_resource hm).symm.trans (requestMatches_resource hc2))
      simpa [List.filter_cons, hx] using ih hnd.2 h

/-! ## The install handler, case by case -/

lemma manifest_requests :
    ressources.map requestOfUrl = [get "/", get "/index.html", get "/style.css"] := by
  decide

lemma fetched_resources_nodup {net : Network} {fetched : List (Request × Response)}
    (h : fetchAll net (ressources.map requestOfUrl) = .ok fetched) :
    (fetched.map (fun e => e.1.url.resource)).Nodup := by
  have hkeys := (fetchAll_ok h).1
  have : fetched.map (fun e => e.1.url.resource)
      = (fetched.map Prod.fst).map (fun q => q.url.resource) := by
    simp [List.map_map, Function.comp_def]
  rw [this, hkeys, manifest_requests]
  decide

lemma fetched_self_match {net : Network} {fetched : List (Request × Response)}
    (h : fetchAll net (ressources.map requestOfUrl) = .ok fetched) :
    ∀ e ∈ fetched, requestMatches e.1 e = true := by
  intro e he
  obtain ⟨hkeys, hall⟩ := fetchAll_ok h
  have hreq : e.1 ∈ ressources.map requestOfUrl := by
    rw [← hkeys]
    exact List.mem_map_of_mem Prod.fst he
  obtain ⟨q, _, hq⟩ := List.mem_map.mp hreq
  have hget : e.1.method = "GET" := by rw [← hq]; rfl
  exact requestMatches_self hget (hall e he).2

lemma fetched_mem_of_ressource {net : Network} {fetched : List (Request × Response)}
    (h : fetchAll net (ressources.map requestOfUrl) = .ok fetched) {q : String}
    (hq : q ∈ ressources) :
    ∃ r, (requestOfUrl q, r) ∈ fetched ∧ net (requestOfUrl q) = .ok r ∧
      addAllAccepts r = true := by
  obtain ⟨hkeys, hall⟩ := fetchAll_ok h
  have hreq : requestOfUrl q ∈ fetched.map Prod.fst := by
    rw [hkeys]
    exact List.mem_map_of_mem requestOfUrl hq
  obtain ⟨e, he, hfst⟩ := List.mem_map.mp hreq
  have := hall e he
  rw [hfst] at this
  refine ⟨e.2, ?_, this⟩
  rw [← hfst]
  exact he

lemma onInstall_of_fetched {net : Network} (caches : CacheStorage)
    {fetched : List (Request × Response)}
    (h : fetchAll net (ressources.map requestOfUrl) = .ok fetched) :
    onInstall net caches =
      ⟨.ok (), storeWrite (cachesOpen caches "sw-demo") "sw-demo"
        (keptBy fetched (storeEntries caches "sw-demo") ++ fetched),
        ressources.map requestOfUrl⟩ := by
  have hb := batchPut_eq (storeEntries caches "sw-demo") [] fetched
    (fetched_resources_nodup h) (by simp)
  simp [onInstall, cacheAddAll, h, storeEntries_cachesOpen, hb]

lemma onInstall_of_error {net : Network} (caches : CacheStorage) {e : AddAllError}
    (h : fetchAll net (ressources.map requestOfUrl) = .error e) :
    onInstall net caches
      = ⟨.error e, cachesOpen caches "sw-demo", ressources.map requestOfUrl⟩ := by
  simp [onInstall, cacheAddAll, h]

lemma fetchSucceeds_iff {net : Network} {q : Request} :
    fetchSucceeds net q = true ↔ ∃ r, net q = .ok r ∧ addAllAccepts r = true := by
  unfold fetchSucceeds
  rcases net q with f | r <;> simp

/-- After a successful install the cache `sw-demo` holds, for every manifest
URL, the pair of install's request and the network's response, and answers
install's request with it. -/
lemma onInstall_ok_entries {net : Network} {caches : CacheStorage}
    (hok : (onInstall net caches).result = .ok ()) {q : String} (hq : q ∈ ressources) :
    ∃ r, net (requestOfUrl q) = .ok r ∧ addAllAccepts r = true ∧
      (requestOfUrl q, r) ∈ storeEntries (onInstall net caches).caches "sw-demo" ∧
      cacheMatch (storeEntries (onInstall net caches).caches "sw-demo") (requestOfUrl q)
        = some r ∧
      ((storeEntries (onInstall net caches).caches "sw-demo").filter
        (fun e => requestMatches (requestOfUrl q) e)).length = 1 := by
  rcases hf : fetchAll net (ressources.map requestOfUrl) with e | fetched
  · rw [onInstall_of_error caches hf] at hok
    cases hok
  · obtain ⟨r, hmem, hnet, hacc⟩ := fetched_mem_of_ressource hf hq
    have hnd := fetched_resources_nodup hf
    have hself := fetched_self_match hf _ hmem
    have hkept : ∀ e ∈ keptBy fetched (storeEntries caches "sw-demo"),
        requestMatches (requestOfUrl q) e = false :=
      fun e he => (mem_keptBy.mp he).2 _ hmem
    refine ⟨r, hnet, hacc, ?_⟩
    rw [onInstall_of_fetched caches hf]
    simp only
    rw [storeEntries_storeWrite_same _ (any_name_cachesOpen caches "sw-demo")]
    refine ⟨List.mem_append_right _ hmem, cacheMatch_kept_append hnd hmem hself hkept, ?_⟩
    rw [List.filter_append, List.filter_eq_nil_iff.mpr (fun e he => by simp [hkept e he]),
      List.nil_append]
    exact filter_matches_length_one hnd hmem hself

lemma onInstall_result_ok_iff (net : Network) (caches : CacheStorage) :
    (onInstall net caches).result = .ok () ↔
      ∀ q ∈ ressources, fetchSucceeds net (requestOfUrl q) = true := by
  constructor
  · intro hok q hq
    obtain ⟨r, hnet, hacc, _⟩ := onInstall_ok_entries hok hq
    exact fetchSucceeds_iff.mpr ⟨r, hnet, hacc⟩
  · intro hall
    obtain ⟨fetched, hf⟩ := @fetchAll_of_all net (ressources.map requestOfUrl) (by
        intro q hq
        obtain ⟨s, hs, rfl⟩ := List.mem_map.mp hq
        exact fetchSucceeds_iff.mp (hall s hs))
    rw [onInstall_of_fetched caches hf]

lemma onInstall_result_error {net : Network} {caches : CacheStorage} {q : String}
    (hq : q ∈ ressources) (hfail : fetchSucceeds net (requestOfUrl q) = false) :
    (onInstall net caches).result = .error .typeError ∧
      (onInstall net caches).caches = cachesOpen caches "sw-demo" := by
  rcases hf : fetchAll net (ressources.map requestOfUrl) with e | fetched
  · rw [onInstall_of_error caches hf]
    exact ⟨by rw [(fetchAll_error hf).1], rfl⟩
  · obtain ⟨r, _, hnet, hacc⟩ := fetched_mem_of_ressource hf hq
    rw [fetchSucceeds_iff.mpr ⟨r, hnet, hacc⟩] at hfail
    cases hfail

/-! ## The fetch handler -/

/-- C1 (cache hit): whenever the lookup of the request in the host's cache
storage finds a stored response, the fetch handler responds with exactly that
response, which is held by a stored pair the request matches, and issues no
network call. -/
theorem fetch_hit_serves_stored (net : Network) (caches : CacheStorage) (request : Request)
    (response : Response) (hhit : cachesMatch caches request = some response) :
    (onFetch net caches request).result = .ok response ∧
      (onFetch net caches request).netCalls = [] ∧
      ∃ p ∈ caches, ∃ e ∈ p.2, e.2 = response ∧ requestMatches request e = true := by
  refine ⟨?_, ?_, cachesMatch_some_mem hhit⟩ <;> simp [onFetch, hhit]

theorem fetch_hit_serves_stored_witness :
    cachesMatch [("sw-demo", [(get "/", page "home")])] (get "/") = some (page "home") ∧
      (onFetch offline [("sw-demo", [(get "/", page "home")])] (get "/")).result
        = .ok (page "home") ∧
      (onFetch offline [("sw-demo", [(get "/", page "home")])] (get "/")).netCalls = [] :=
  ⟨by decide,
    (fetch_hit_serves_stored offline _ (get "/") (page "home") (by decide)).1,
    (fetch_hit_serves_stored offline _ (get "/") (page "home") (by decide)).2.1⟩

/-- C2 (cache miss): whenever the lookup of the request finds no stored entry,
the fetch handler issues exactly one network call, for that same request, and
its outcome is the outcome of the network for that request as it is: the
response when the call succeeds, the failure when it fails. -/
theorem fetch_miss_forwards_to_network (net : Network) (caches : CacheStorage)
    (request : Request) (hmiss : cachesMatch caches request = none) :
    (onFetch net caches request).netCalls = [request] ∧
      (onFetch net caches request).result = net request ∧
      (∀ r, net request = .ok r → (onFetch net caches request).result = .ok r) ∧
      (∀ f, net request = .error f → (onFetch net caches request).result = .error f) := by
  have hres : (onFetch net caches request).result = net request := by
    simp [onFetch, hmiss, fetch]
  refine ⟨by simp [onFetch, hmiss, fetch], hres, ?_, ?_⟩
  · intro r hr
    rw [hres, hr]
  · intro f hf
    rw [hres, hf]

theorem fetch_miss_forwards_to_network_witness :
    cachesMatch [("sw-demo", [(get "/", page "home")])] (get "/app.js") = none ∧
      (onFetch offline [("sw-demo", [(get "/", page "home")])] (get "/app.js")).netCalls
        = [get "/app.js"] ∧
      (onFetch offline [("sw-demo", [(get "/", page "home")])] (get "/app.js")).result
        = .error ⟨"offline"⟩ :=
  ⟨by decide,
    (fetch_miss_forwards_to_network offline _ (get "/app.js") (by decide)).1,
    (fetch_miss_forwards_to_network offline _ (get "/app.js") (by decide)).2.2.2
      ⟨"offline"⟩ rfl⟩

/-- C5 (no write on fetch): the cache storage after the fetch handler is the
storage before it, whatever the request and the outcome of the network; and
after a miss a second fetch of the same request misses again and goes to the
network once more. -/
theorem fetch_leaves_storage_unchanged (net net2 : Network) (caches : CacheStorage)
    (request : Request) :
    (onFetch net caches request).caches = caches ∧
      (cachesMatch caches request = none →
        cachesMatch (onFetch net caches request).caches request = none ∧
        (onFetch net2 (onFetch net caches request).caches request).netCalls = [request] ∧
        (onFetch net2 (onFetch net caches request).caches request).result = net2 request) := by
  have hsame : (onFetch net caches request).caches = caches := by
    unfold onFetch
    split <;> rfl
  refine ⟨hsame, ?_⟩
  intro hmiss
  rw [hsame]
  exact ⟨hmiss, by simp [onFetch, hmiss, fetch], by simp [onFetch, hmiss, fetch]⟩

theorem fetch_leaves_storage_unchanged_witness :
    (onFetch (serving "app") (onFetch (serving "app") [] (get "/app.js")).caches
      (get "/app.js")).netCalls = [get "/app.js"] :=
  ((fetch_leaves_storage_unchanged (serving "app") (serving "app") [] (get "/app.js")).2
    (by decide)).2.1

/-- C7, as stated, fails: `/index.html#top` and `/index.html` are distinct
identifiers, yet with an entry stored under `/index.html` only, the fetch for
`/index.html#top` is answered with that entry and nothing goes to the network. -/
theorem fragment_ignored_counterexample :
    ¬ ∀ (net : Network) (caches : CacheStorage) (a : Request) (b : Url),
        a.url ≠ b → (∀ p ∈ caches, ∀ e ∈ p.2, e.1.url = b) →
        (onFetch net caches a).netCalls = [a] ∧ (onFetch net caches a).result = net a := by
  intro h
  have := (h offline [("sw-demo", [(get "/index.html", page "index")])]
    ⟨⟨"/index.html", some "top"⟩, "GET", []⟩ ⟨"/index.html", none⟩
    (by decide) (by decide)).1
  revert this
  decide

/-- C7, amended (matching on the URL apart from its fragment): a fetch for `a`
that is answered from the storage is answered with a response stored under a URL
equal to that of `a` apart from the fragment; when all entries of the storage
are stored under a URL `b` that differs from that of `a` apart from the
fragment, the fetch for `a` is a miss and goes to the network; and with an entry
for `/` only, whatever response it holds, a fetch for `/index.html` goes to the
network. -/
theorem fetch_matches_exact_identifier (net : Network) (caches : CacheStorage)
    (a : Request) :
    (∀ r, (onFetch net caches a).netCalls = [] → (onFetch net caches a).result = .ok r →
        ∃ p ∈ caches, ∃ e ∈ p.2, e.2 = r ∧ e.1.url.resource = a.url.resource) ∧
      (∀ b : Url, a.url.resource ≠ b.resource → (∀ p ∈ caches, ∀ e ∈ p.2, e.1.url = b) →
        (onFetch net caches a).netCalls = [a] ∧ (onFetch net caches a).result = net a) ∧
      (∀ r : Response, a.url.resource = "/index.html" →
        (onFetch net [("sw-demo", [(requestOfUrl "/", r)])] a).netCalls = [a] ∧
        (onFetch net [("sw-demo", [(requestOfUrl "/", r)])] a).result = net a) := by
  refine ⟨?_, ?_, ?_⟩
  · intro r hcalls hres
    rcases hm : cachesMatch caches a with _ | r2
    · simp [onFetch, hm, fetch] at hcalls
    · simp [onFetch, hm] at hres
      subst hres
      obtain ⟨p, hp, e, he, hr, hmatch⟩ := cachesMatch_some_mem hm
      exact ⟨p, hp, e, he, hr, (requestMatches_resource hmatch).symm⟩
  · intro b hab hall
    have hm : cachesMatch caches a = none := by
      rw [cachesMatch_eq_none]
      intro p hp e he
      by_contra hc
      have hc2 : requestMatches a e = true := by simpa using hc
      apply hab
      rw [requestMatches_resource hc2, hall p hp e he]
    simp [onFetch, hm, fetch]
  · intro r ha
    have hm : cachesMatch [("sw-demo", [(requestOfUrl "/", r)])] a = none := by
      rw [cachesMatch_eq_none]
      intro p hp e he
      simp only [List.mem_singleton] at hp
      subst hp
      simp only [List.mem_singleton] at he
      subst he
      by_contra hc
      have hc2 : requestMatches a (requestOfUrl "/", r) = true := by simpa using hc
      have hres := requestMatches_resource hc2
      rw [ha] at hres
      have hroot : (requestOfUrl "/").url.resource = "/" := by decide
      change "/index.html" = (requestOfUrl "/").url.resource at hres
      rw [hroot] at hres
      revert hres
      decide
    simp [onFetch, hm, fetch]

theorem fetch_matches_exact_identifier_witness :
    (onFetch offline [("sw-demo", [(get "/", page "home")])] (get "/index.html")).netCalls
        = [get "/index.html"] ∧
      (onFetch offline [("sw-demo", [(get "/", page "home")])] (get "/index.html")).result
        = .error ⟨"offline"⟩ :=
  (fetch_matches_exact_identifier offline [("sw-demo", [(get "/", page "home")])]
    (get "/index.html")).2.1 ⟨"/", none⟩ (by decide) (by decide)

/-- C6, as stated, fails: a response stored under the request only in a store
with another name, while `sw-demo` holds no entry for it, is returned by the
fetch handler and nothing is forwarded to the network. -/
theorem fetch_single_store_counterexample :
    ¬ ∀ (net : Network) (caches : CacheStorage) (request : Request) (name : String)
        (response : Response),
        name ≠ "sw-demo" → cacheMatch (storeEntries caches name) request = some response →
        cacheMatch (storeEntries caches "sw-demo") request = none →
        (onFetch net caches request).netCalls = [request] ∧
          (onFetch net caches request).result = net request := by
  intro h
  have := (h offline [("other", [(get "/app.js", page "old")])] (get "/app.js") "other"
    (page "old") (by decide) (by decide) (by decide)).1
  revert this
  decide

/-- C6, amended: the fetch handler looks the request up in every store of the
host's cache storage, in creation order, `sw-demo` among them. The handler
answers with the first matching entry of the first store, in creation order,
that holds an entry the request matches, whatever the name of that store, and
issues no network call; only if no store holds a matching entry is the request
forwarded to the network. -/
theorem fetch_consults_every_store (net : Network) (caches : CacheStorage)
    (request : Request) :
    (∀ (before after : CacheStorage) (name : String) (pre post : Cache)
        (e : Request × Response),
        caches = before ++ (name, pre ++ e :: post) :: after →
        (∀ s ∈ before, ∀ x ∈ s.2, requestMatches request x = false) →
        (∀ x ∈ pre, requestMatches request x = false) →
        requestMatches request e = true →
        (onFetch net caches request).netCalls = [] ∧
        (onFetch net caches request).result = .ok e.2) ∧
      ((∀ p ∈ caches, ∀ e ∈ p.2, requestMatches request e = false) →
        (onFetch net caches request).netCalls = [request] ∧
        (onFetch net caches request).result = net request) := by
  refine ⟨?_, ?_⟩
  · intro before after name pre post e hcaches hbefore hpre hmatch
    have hm : cachesMatch caches request = some e.2 := by
      rw [hcaches]
      exact cachesMatch_first hbefore (cacheMatch_first hpre hmatch)
    simp [onFetch, hm]
  · intro hall
    have hm := cachesMatch_eq_none.mpr hall
    simp [onFetch, hm, fetch]

theorem fetch_consults_every_store_witness :
    (onFetch offline
        [("a", [(get "/app.js", page "from-a")]), ("sw-demo", []),
          ("b", [(get "/app.js", page "from-b")])] (get "/app.js")).netCalls = [] ∧
      (onFetch offline
        [("a", [(get "/app.js", page "from-a")]), ("sw-demo", []),
          ("b", [(get "/app.js", page "from-b")])] (get "/app.js")).result
        = .ok (page "from-a") :=
  (fetch_consults_every_store offline
    [("a", [(get "/app.js", page "from-a")]), ("sw-demo", []),
      ("b", [(get "/app.js", page "from-b")])] (get "/app.js")).1
    [] [("sw-demo", []), ("b", [(get "/app.js", page "from-b")])] "a" []
    [] (get "/app.js", page "from-a") rfl (by simp) (by simp) (by decide)

/-! ## The install handler -/

/-- C4 (install failure): if the fetch of some manifest identifier fails during
install, be it that the network call fails or that `addAll` does not accept the
response, the deferred result handed to `event.waitUntil` is a failure; and if
that result is a success, the fetch of every manifest identifier succeeded. -/
theorem install_fails_when_a_fetch_fails (net : Network) (caches : CacheStorage) :
    ((∃ q ∈ ressources, ∃ f, net (requestOfUrl q) = .error f) →
        (onInstall net caches).result = .error .typeError) ∧
      ((∃ q ∈ ressources, fetchSucceeds net (requestOfUrl q) = false) →
        (onInstall net caches).result = .error .typeError) ∧
      ((onInstall net caches).result = .ok () →
        ∀ q ∈ ressources, ∃ r, net (requestOfUrl q) = .ok r ∧ addAllAccepts r = true) := by
  refine ⟨?_, ?_, ?_⟩
  · rintro ⟨q, hq, f, hf⟩
    have hfail : fetchSucceeds net (requestOfUrl q) = false := by simp [fetchSucceeds, hf]
    exact (onInstall_result_error hq hfail).1
  · rintro ⟨q, hq, hfail⟩
    exact (onInstall_result_error hq hfail).1
  · intro hok q hq
    obtain ⟨r, hnet, hacc, _⟩ := onInstall_ok_entries hok hq
    exact ⟨r, hnet, hacc⟩

theorem install_fails_when_a_fetch_fails_witness :
    (onInstall offline []).result = .error .typeError :=
  (install_fails_when_a_fetch_fails offline []).1
    ⟨"/style.css", by decide, ⟨"offline"⟩, rfl⟩

/-- C8 (all-or-nothing population): either the fetch of every manifest
identifier succeeds, install succeeds and the cache `sw-demo` holds, for every
manifest identifier, the pair of its request and the response the network gave
for it; or some fetch fails, install fails and no entry is written: the storage
is the one `caches.open` left and every store holds the entries it held before. -/
theorem install_all_or_nothing (net : Network) (caches : CacheStorage) :
    ((∀ q ∈ ressources, fetchSucceeds net (requestOfUrl q) = true) ∧
        (onInstall net caches).result = .ok () ∧
        ∀ q ∈ ressources, ∃ r, net (requestOfUrl q) = .ok r ∧
          (requestOfUrl q, r) ∈ storeEntries (onInstall net caches).caches "sw-demo" ∧
          cacheMatch (storeEntries (onInstall net caches).caches "sw-demo") (requestOfUrl q)
            = some r) ∨
      ((∃ q ∈ ressources, fetchSucceeds net (requestOfUrl q) = false) ∧
        (onInstall net caches).result = .error .typeError ∧
        (onInstall net caches).caches = cachesOpen caches "sw-demo" ∧
        ∀ name, storeEntries (onInstall net caches).caches name = storeEntries caches name) := by
  by_cases hall : ∀ q ∈ ressources, fetchSucceeds net (requestOfUrl q) = true
  · left
    have hok := (onInstall_result_ok_iff net caches).mpr hall
    refine ⟨hall, hok, ?_⟩
    intro q hq
    obtain ⟨r, hnet, _, hmem, hm, _⟩ := onInstall_ok_entries hok hq
    exact ⟨r, hnet, hmem, hm⟩
  · right
    push_neg at hall
    obtain ⟨q, hq, hne⟩ := hall
    have hfail : fetchSucceeds net (requestOfUrl q) = false := by simpa using hne
    obtain ⟨hres, hcaches⟩ := @onInstall_result_error net caches q hq hfail
    refine ⟨⟨q, hq, hfail⟩, hres, hcaches, ?_⟩
    intro name
    rw [hcaches, storeEntries_cachesOpen]

/-- C9 (install from an empty storage): the manifest is the three pairwise
distinct identifiers `/`, `/index.html`, `/style.css`, and a successful install
on an empty cache storage leaves exactly one store, named `sw-demo`, holding
exactly three entries, in manifest order, each pairing the request for a
manifest identifier with the response the network returned for it. -/
theorem install_from_empty_storage (net : Network)
    (hok : (onInstall net []).result = .ok ()) :
    ressources = ["/", "/index.html", "/style.css"] ∧ ressources.Nodup ∧
      ∃ r1 r2 r3, net (requestOfUrl "/") = .ok r1 ∧
        net (requestOfUrl "/index.html") = .ok r2 ∧
        net (requestOfUrl "/style.css") = .ok r3 ∧
        (onInstall net []).caches
          = [("sw-demo", [(requestOfUrl "/", r1), (requestOfUrl "/index.html", r2),
              (requestOfUrl "/style.css", r3)])] := by
  refine ⟨rfl, by decide, ?_⟩
  rcases hf : fetchAll net (ressources.map requestOfUrl) with e | fetched
  · rw [onInstall_of_error [] hf] at hok
    cases hok
  · obtain ⟨hkeys, hall⟩ := fetchAll_ok hf
    rw [onInstall_of_fetched [] hf]
    simp only
    match fetched, hkeys, hall with
    | [(k1, r1), (k2, r2), (k3, r3)], hkeys, hall =>
      simp only [ressources, List.map_cons, List.map_nil, List.cons.injEq, and_true] at hkeys
      obtain ⟨h1, h2, h3⟩ := hkeys
      subst h1; subst h2; subst h3
      refine ⟨r1, r2, r3, (hall (requestOfUrl "/", r1) (by simp)).1,
        (hall (requestOfUrl "/index.html", r2) (by simp)).1,
        (hall (requestOfUrl "/style.css", r3) (by simp)).1, ?_⟩
      simp [cachesOpen, storeWrite, storeEntries, keptBy]
    | [], hkeys, _ => simp [ressources] at hkeys
    | [_], hkeys, _ => simp [ressources] at hkeys
    | [_, _], hkeys, _ => simp [ressources] at hkeys
    | _ :: _ :: _ :: _ :: _, hkeys, _ => simp [ressources] at hkeys

theorem install_from_empty_storage_witness :
    ∃ r1 r2 r3, serving "page" (requestOfUrl "/") = .ok r1 ∧
      serving "page" (requestOfUrl "/index.html") = .ok r2 ∧
      serving "page" (requestOfUrl "/style.css") = .ok r3 ∧
      (onInstall (serving "page") []).caches
        = [("sw-demo", [(requestOfUrl "/", r1), (requestOfUrl "/index.html", r2),
            (requestOfUrl "/style.css", r3)])] :=
  (install_from_empty_storage (serving "page")
    ((onInstall_result_ok_iff (serving "page") []).mpr (by decide))).2.2

/-- C10 (re-runnable, idempotent install): from any cache storage, install on a
network where every manifest identifier is fetchable (answered with a response
`addAll` accepts) succeeds and leaves in `sw-demo`, for every manifest
identifier, exactly one entry that its request matches, holding the response of
the network; and running install a second time against the same network leaves
the storage and the result of the first run. -/
theorem install_rerunnable_idempotent (net : Network) (caches : CacheStorage) :
    ((∀ q ∈ ressources, fetchSucceeds net (requestOfUrl q) = true) →
        (onInstall net caches).result = .ok () ∧
        ∀ q ∈ ressources, ∃ r, net (requestOfUrl q) = .ok r ∧
          cacheMatch (storeEntries (onInstall net caches).caches "sw-demo") (requestOfUrl q)
            = some r ∧
          ((storeEntries (onInstall net caches).caches "sw-demo").filter
            (fun e => requestMatches (requestOfUrl q) e)).length = 1) ∧
      (onInstall net (onInstall net caches).caches).caches = (onInstall net caches).caches ∧
      (onInstall net (onInstall net caches).caches).result = (onInstall net caches).result := by
  have hany := any_name_cachesOpen caches "sw-demo"
  refine ⟨?_, ?_⟩
  · intro hall
    have hok := (onInstall_result_ok_iff net caches).mpr hall
    refine ⟨hok, ?_⟩
    intro q hq
    obtain ⟨r, hnet, _, _, hm, hone⟩ := onInstall_ok_entries hok hq
    exact ⟨r, hnet, hm, hone⟩
  · rcases hf : fetchAll net (ressources.map requestOfUrl) with e | fetched
    · rw [onInstall_of_error caches hf]
      simp only
      rw [onInstall_of_error _ hf]
      exact ⟨cachesOpen_of_any hany, rfl⟩
    · rw [onInstall_of_fetched caches hf]
      simp only
      rw [onInstall_of_fetched _ hf]
      have hany2 := (any_name_storeWrite (cachesOpen caches "sw-demo") "sw-demo"
        (keptBy fetched (storeEntries caches "sw-demo") ++ fetched)).trans hany
      refine ⟨?_, rfl⟩
      simp only
      rw [cachesOpen_of_any hany2, storeEntries_storeWrite_same _ hany,
        keptBy_append_self _ (fetched_self_match hf), storeWrite_storeWrite]

theorem install_rerunnable_idempotent_witness :
    (onInstall (serving "page") [("sw-demo", [(get "/", page "stale")])]).result = .ok () :=
  ((install_rerunnable_idempotent (serving "page")
    [("sw-demo", [(get "/", page "stale")])]).1 (by decide)).1

/-- C3, as stated, fails: with a store created before `sw-demo` that holds an
entry for `/`, install succeeds and stores the network's response for `/` in
`sw-demo`, yet the fetch for `/` is answered with the entry of the older store.
Besides, after a successful install a `POST` to `/` goes to the network, and so
does a `GET` of `/` whose `accept` header differs from that of install's request
when the stored response varies on `accept`. -/
theorem older_store_shadows_install :
    (¬ ∀ (net net2 : Network) (caches : CacheStorage) (q : String),
        (onInstall net caches).result = .ok () → q ∈ ressources →
        (onFetch net2 (onInstall net caches).caches (requestOfUrl q)).netCalls = [] ∧
        ∃ r, (requestOfUrl q, r) ∈ storeEntries (onInstall net caches).caches "sw-demo" ∧
          (onFetch net2 (onInstall net caches).caches (requestOfUrl q)).result = .ok r) ∧
      ((onInstall (serving "fresh") []).result = .ok () ∧
        (onFetch offline (onInstall (serving "fresh") []).caches
          ⟨⟨"/", none⟩, "POST", []⟩).netCalls = [⟨⟨"/", none⟩, "POST", []⟩]) ∧
      ((onInstall (varying "fresh") []).result = .ok () ∧
        (onFetch offline (onInstall (varying "fresh") []).caches
          ⟨⟨"/", none⟩, "GET", [("accept", "text/html")]⟩).netCalls
          = [⟨⟨"/", none⟩, "GET", [("accept", "text/html")]⟩]) := by
  refine ⟨?_, ⟨(onInstall_result_ok_iff _ _).mpr (by decide), by decide⟩,
    ⟨(onInstall_result_ok_iff _ _).mpr (by decide), by decide⟩⟩
  intro h
  obtain ⟨_, r, hmem, hres⟩ := h (serving "fresh") offline
    [("old", [(get "/", page "stale")])] "/"
    ((onInstall_result_ok_iff _ _).mpr (by decide)) (by decide)
  have hserved : (onFetch offline
      (onInstall (serving "fresh") [("old", [(get "/", page "stale")])]).caches
      (requestOfUrl "/")).result = .ok (page "stale") := by
    rfl
  rw [hserved] at hres
  cases hres
  revert hmem
  decide

/-- C3, amended: after a successful install, a `GET` fetch signal whose URL is a
manifest identifier apart from a fragment, and whose headers agree with those of
install's request on the fields named by the `Vary` header of the response
install fetched, issues no network call and is answered with a stored response
that the request matches; and that response is the one install stored for the
identifier, the network's response at install, whenever no entry consulted
earlier matches the request: none in a store created before `sw-demo`, and none
in `sw-demo` that install's own request does not match and so left in place. -/
theorem install_then_fetch (net net2 : Network) (caches : CacheStorage) (q : String)
    (request : Request)
    (hok : (onInstall net caches).result = .ok ()) (hq : q ∈ ressources)
    (hget : request.method = "GET")
    (hurl : request.url.resource = (parseUrl q).resource)
    (hvary : ∀ r, net (requestOfUrl q) = .ok r → ∀ field ∈ r.vary,
      headerValue request field = headerValue (requestOfUrl q) field) :
    (onFetch net2 (onInstall net caches).caches request).netCalls = [] ∧
      ∃ r, (onFetch net2 (onInstall net caches).caches request).result = .ok r ∧
        (∃ p ∈ (onInstall net caches).caches, ∃ e ∈ p.2,
          e.2 = r ∧ requestMatches request e = true) ∧
        (cachesMatch (storesBefore caches "sw-demo") request = none →
          (∀ e ∈ storeEntries caches "sw-demo", requestMatches request e = true →
            requestMatches (requestOfUrl q) e = true) →
          net (requestOfUrl q) = .ok r ∧
          (requestOfUrl q, r) ∈ storeEntries (onInstall net caches).caches "sw-demo") := by
  rcases hf : fetchAll net (ressources.map requestOfUrl) with e | fetched
  · rw [onInstall_of_error caches hf] at hok
    cases hok
  · obtain ⟨r0, hmem, hnet, hacc⟩ := fetched_mem_of_ressource hf hq
    have hnd := fetched_resources_nodup hf
    have hany := any_name_cachesOpen caches "sw-demo"
    have hmatch : requestMatches request (requestOfUrl q, r0) = true := by
      rw [requestMatches_iff]
      refine ⟨hget, hurl, ?_⟩
      intro field hfield
      refine ⟨?_, hvary r0 hnet field hfield⟩
      rintro rfl
      simp [addAllAccepts, hfield] at hacc
    rw [onInstall_of_fetched caches hf]
    simp only
    rcases hm1 : cacheMatch (keptBy fetched (storeEntries caches "sw-demo") ++ fetched)
        request with _ | r1
    · have := cacheMatch_eq_none.mp hm1 _ (List.mem_append_right _ hmem)
      rw [hmatch] at this
      cases this
    · have hlook := cachesMatch_storeWrite hany hm1
      rw [storesBefore_cachesOpen] at hlook
      refine ⟨by simp [onFetch, hlook],
        (cachesMatch (storesBefore caches "sw-demo") request).getD r1,
        by simp [onFetch, hlook], cachesMatch_some_mem hlook, ?_⟩
      intro hbefore hkept
      have hkept2 : ∀ e ∈ keptBy fetched (storeEntries caches "sw-demo"),
          requestMatches request e = false := by
        intro e he
        obtain ⟨heE, hops⟩ := mem_keptBy.mp he
        by_contra hc
        have hc2 : requestMatches request e = true := by simpa using hc
        have h1 := hkept e heE hc2
        rw [hops _ hmem] at h1
        cases h1
      have hm2 := cacheMatch_kept_append hnd hmem hmatch hkept2
      rw [hm1] at hm2
      simp only [Option.some.injEq] at hm2
      subst hm2
      rw [hbefore, storeEntries_storeWrite_same _ hany]
      exact ⟨hnet, List.mem_append_right _ hmem⟩

theorem install_then_fetch_witness :
    (onFetch offline (onInstall (serving "page") []).caches
        ⟨⟨"/style.css", some "top"⟩, "GET", []⟩).netCalls = [] ∧
      ∃ r, (onFetch offline (onInstall (serving "page") []).caches
          ⟨⟨"/style.css", some "top"⟩, "GET", []⟩).result = .ok r ∧
        serving "page" (requestOfUrl "/style.css") = .ok r := by
  obtain ⟨hcalls, r, hres, _, hstored⟩ :=
    install_then_fetch (serving "page") offline [] "/style.css"
      ⟨⟨"/style.css", some "top"⟩, "GET", []⟩
      ((onInstall_result_ok_iff (serving "page") []).mpr (by decide))
      (by decide) rfl (by decide) (by intro r hr field hfield; cases hr; simp [page] at hfield)
  exact ⟨hcalls, r, hres, (hstored (by decide) (by simp [storeEntries])).1⟩

end ServiceWorker
